import Mathlib

/-!  Shallow embedding of the tlc Lua lexer (src/lex.rs).

The source declares a logos-derived lexer: a set of skip patterns
(whitespace, line comment, the restricted block comment, shebang) and a set
of token patterns (exact keyword/operator literals, identifier, quoted
string, integer, float), with logos semantics: at each position the longest
match wins, and at equal length an exact literal pattern beats a regex
pattern (the only such tie here is reserved word vs identifier).  A callback
that returns None (the numeric conversions) turns the matched lexeme into a
lexical error; an unmatched position is a lexical error as well.  The logos
default error type is the unit type.

Machine integers are modelled as Int with explicit i64 bounds.  The f64
payload of Float tokens is modelled as the exact rational value decoded
from the digit string (the Rust code rounds that value to the nearest f64;
every comparison made in the theorems below has the same verdict before and
after rounding, because the compared literals round identically).  Rust
str::trim removes the characters with the Unicode White_Space property;
the model lists that property's 25 code points explicitly.
-/

deriving instance DecidableEq for Except

namespace Tlc

/-- Logos default error type used by the derived lexer is the unit type. -/
abbrev LexError := Unit

/-- Tokens of the lexer, mirroring enum LuaToken in src/lex.rs: the 23
keyword variants And..While, the 17 operator variants, then Identifier,
String, Integer and Float with their payloads. -/
inductive LuaToken where
  | And | Break | Continue | Do | Else | Elseif | End | False | For
  | Function | Goto | If | In | Local | Nil | Not | Or | Repeat
  | Return | Then | True | Until | While
  | Plus | Minus | Multiply | Divide | Modulus | Exponent
  | DoubleEqual | Equal | NotEqual | Greater | Less | GreaterEqual | LessEqual
  | Concatenate | Length | LBracket | RBracket
  | Identifier (s : String)
  | String (s : String)
  | Integer (n : Int)
  | Float (q : Rat)
deriving DecidableEq, Repr

/-- Character class of the skip regex [ \t\n\f]: 32, 9, 10, 12. -/
def isWsC (c : Char) : Bool :=
  decide (c.toNat = 32 ∨ c.toNat = 9 ∨ c.toNat = 10 ∨ c.toNat = 12)

/-- Decimal digit class [0-9]: code points 48..57. -/
def isDigitC (c : Char) : Bool := decide (48 ≤ c.toNat ∧ c.toNat ≤ 57)

/-- Identifier head class [a-zA-Z_]: 97..122, 65..90, 95. -/
def isIdentStartC (c : Char) : Bool :=
  decide ((97 ≤ c.toNat ∧ c.toNat ≤ 122) ∨ (65 ≤ c.toNat ∧ c.toNat ≤ 90) ∨ c.toNat = 95)

/-- Identifier continuation class [a-zA-Z_0-9]. -/
def isIdentContC (c : Char) : Bool := isIdentStartC c || isDigitC c

/-- Hex digit class [0-9a-fA-F]: digits, 97..102, 65..70. -/
def isHexDigitC (c : Char) : Bool :=
  isDigitC c || decide ((97 ≤ c.toNat ∧ c.toNat ≤ 102) ∨ (65 ≤ c.toNat ∧ c.toNat ≤ 70))

/-- Digit-or-underscore class [0-9_]; the underscore is code point 95. -/
def isDigitUndC (c : Char) : Bool := isDigitC c || decide (c.toNat = 95)

/-- Hex-digit-or-underscore class [0-9a-fA-F_]. -/
def isHexUndC (c : Char) : Bool := isHexDigitC c || decide (c.toNat = 95)

/-- Rust char::is_whitespace, the Unicode White_Space property, as used by
str::trim: code points 9..13, 32 (space), 133 (next line), 160 (no-break
space), 5760 (ogham space mark), 8192..8202 (en quad through hair space),
8232 and 8233 (line and paragraph separators), 8239 (narrow no-break
space), 8287 (medium mathematical space) and 12288 (ideographic space). -/
def isTrimWsC (c : Char) : Bool :=
  decide ((9 ≤ c.toNat ∧ c.toNat ≤ 13) ∨ c.toNat = 32 ∨ c.toNat = 133 ∨ c.toNat = 160 ∨
    c.toNat = 5760 ∨ (8192 ≤ c.toNat ∧ c.toNat ≤ 8202) ∨ c.toNat = 8232 ∨
    c.toNat = 8233 ∨ c.toNat = 8239 ∨ c.toNat = 8287 ∨ c.toNat = 12288)

/-- Length of the longest prefix of l whose characters all satisfy p. -/
def takeLen (p : Char → Bool) (l : List Char) : Nat := (l.takeWhile p).length

/-- Longest match of the skip regex [ \t\n\f]+ at the head (0 = no match). -/
def wsLen (l : List Char) : Nat := takeLen isWsC l

/-- Longest match of the line comment skip regex: two dashes then [^\n]*. -/
def lineCommentLen (l : List Char) : Nat :=
  if l.head? = some '-' ∧ (l.drop 1).head? = some '-' then
    2 + takeLen (fun c => c != '\n') (l.drop 2)
  else 0

/-- Match of the block comment skip regex: the literal open bracket pair
after two dashes, then exactly one arbitrary character (the source regex
alternation of the dot with a newline has no repetition operator), then two
dashes and the literal close bracket pair: nine characters in total. -/
def blockCommentLen (l : List Char) : Nat :=
  if l.head? = some '-' ∧ (l.drop 1).head? = some '-' ∧ (l.drop 2).head? = some '[' ∧
      (l.drop 3).head? = some '[' ∧ (l.drop 4).head?.isSome = true ∧
      (l.drop 5).head? = some '-' ∧ (l.drop 6).head? = some '-' ∧
      (l.drop 7).head? = some ']' ∧ (l.drop 8).head? = some ']' then
    9
  else 0

/-- Longest match of the shebang skip regex: hash, bang, then [^\n]*. -/
def shebangLen (l : List Char) : Nat :=
  if l.head? = some '#' ∧ (l.drop 1).head? = some '!' then
    2 + takeLen (fun c => c != '\n') (l.drop 2)
  else 0

/-- Longest skip match at the head of l over the four skip patterns. -/
def skipLen (l : List Char) : Nat :=
  max (max (wsLen l) (lineCommentLen l)) (max (blockCommentLen l) (shebangLen l))

/-- Longest match of the identifier regex [a-zA-Z_][a-zA-Z_0-9]*. -/
def identLen (l : List Char) : Nat :=
  match l.head? with
  | some c => if isIdentStartC c then 1 + takeLen isIdentContC (l.drop 1) else 0
  | none => 0

/-- Match of one alternative of the string regex: opening quote q, a run of
characters other than q and the newline, then the closing q. -/
def strQuoteLen (q : Char) (l : List Char) : Nat :=
  if l.head? = some q then
    let inner := takeLen (fun c => c != q && c != '\n') (l.drop 1)
    if (l.drop (1 + inner)).head? = some q then inner + 2 else 0
  else 0

/-- Longest match of the string regex (double- or single-quoted form). -/
def strLen (l : List Char) : Nat := max (strQuoteLen '"' l) (strQuoteLen '\'' l)

/-- Longest match of the decimal run [0-9][0-9_]*. -/
def decRunLen (l : List Char) : Nat :=
  match l.head? with
  | some c => if isDigitC c then 1 + takeLen isDigitUndC (l.drop 1) else 0
  | none => 0

/-- Longest match of the hex run [0-9a-fA-F][0-9a-fA-F_]*. -/
def hexRunLen (l : List Char) : Nat :=
  match l.head? with
  | some c => if isHexDigitC c then 1 + takeLen isHexUndC (l.drop 1) else 0
  | none => 0

/-- Longest match of the hex alternative of the integer regex:
a zero, x or X, then a hex run. -/
def hexIntLen (l : List Char) : Nat :=
  if l.head? = some '0' ∧ ((l.drop 1).head? = some 'x' ∨ (l.drop 1).head? = some 'X') then
    let a := hexRunLen (l.drop 2)
    if a = 0 then 0 else 2 + a
  else 0

/-- Longest match of the integer regex (decimal or hex alternative). -/
def intLen (l : List Char) : Nat := max (decRunLen l) (hexIntLen l)

/-- Longest match of the decimal alternative of the float regex:
a decimal run, a dot, a decimal run. -/
def decFloatLen (l : List Char) : Nat :=
  let a := decRunLen l
  if a = 0 then 0
  else
    if (l.drop a).head? = some '.' then
      let b := decRunLen (l.drop (a + 1))
      if b = 0 then 0 else a + 1 + b
    else 0

/-- Longest match of the hex alternative of the float regex:
a zero, x or X, a hex run, a dot, a hex run. -/
def hexFloatLen (l : List Char) : Nat :=
  if l.head? = some '0' ∧ ((l.drop 1).head? = some 'x' ∨ (l.drop 1).head? = some 'X') then
    let a := hexRunLen (l.drop 2)
    if a = 0 then 0
    else
      if (l.drop (2 + a)).head? = some '.' then
        let b := hexRunLen (l.drop (2 + a + 1))
        if b = 0 then 0 else 2 + a + 1 + b
      else 0
  else 0

/-- Longest match of the float regex (decimal or hex alternative). -/
def floatLen (l : List Char) : Nat := max (decFloatLen l) (hexFloatLen l)

/-- Numeric value of a decimal digit character. -/
def digitVal (c : Char) : Nat := c.toNat - 48

/-- Base-10 value of a digit list. -/
def decValue (l : List Char) : Nat := l.foldl (fun a c => 10 * a + digitVal c) 0

/-- Largest value of the signed 64-bit type. -/
def i64Max : Int := 9223372036854775807

/-- Smallest value of the signed 64-bit type. -/
def i64Min : Int := -9223372036854775808

/-- Rust trim_start_matches with the lowercase hex marker pattern:
removes every leading occurrence. -/
def trimStart0x : List Char → List Char
  | '0' :: 'x' :: r => trimStart0x r
  | l => l

/-- Rust trim_start_matches with the uppercase hex marker pattern. -/
def trimStart0X : List Char → List Char
  | '0' :: 'X' :: r => trimStart0X r
  | l => l

/-- The shared stripping step of as_int and as_float in src/lex.rs:
trim_start_matches of the lowercase then the uppercase hex marker, then
replace of the underscore by the empty string. -/
def stripNum (l : List Char) : List Char :=
  ((trimStart0X (trimStart0x l)).filter (fun c => c != '_'))

/-- Model of lexical_core::parse for i64 on the strings reachable from the
lexer: an optional minus sign, then one or more decimal digits, the value
within the signed 64-bit bounds; anything else fails.  (The default
lexical_core number format parses base 10 only; a sign never actually
occurs in a lexeme here.) -/
def parseI64 (l : List Char) : Option Int :=
  let p := if l.head? = some '-' then (true, l.drop 1) else (false, l)
  if p.2 ≠ [] ∧ p.2.all isDigitC = true then
    let v : Int := if p.1 then -(decValue p.2 : Int) else (decValue p.2 : Int)
    if i64Min ≤ v ∧ v ≤ i64Max then some v else none
  else none

/-- Model of lexical_core::parse for f64 on the strings reachable from the
lexer (decimal digits with at most one dot): the exact rational value of
the decimal string i.f, namely (i times ten to the k plus f) over ten to
the k where k is the number of fraction digits; anything containing other
characters fails.  Rounding to the nearest f64 is omitted, see the file
comment. -/
def parseF64Rat (l : List Char) : Option Rat :=
  let p := if l.head? = some '-' then (true, l.drop 1) else (false, l)
  let ip := p.2.takeWhile (fun c => c != '.')
  let rest := p.2.drop ip.length
  if ip ≠ [] ∧ ip.all isDigitC = true then
    if rest = [] then
      let q : Rat := mkRat (decValue ip) 1
      some (if p.1 then -q else q)
    else
      let fr := rest.drop 1
      if fr.all isDigitC = true then
        let q : Rat := mkRat (decValue ip * 10 ^ fr.length + decValue fr) (10 ^ fr.length)
        some (if p.1 then -q else q)
      else none
  else none

/-- The as_int callback of src/lex.rs: strip the hex marker and the
underscores, then parse as i64. -/
def asInt (lexeme : List Char) : Option Int := parseI64 (stripNum lexeme)

/-- The as_float callback of src/lex.rs: strip the hex marker and the
underscores, then parse as f64. -/
def asFloat (lexeme : List Char) : Option Rat := parseF64Rat (stripNum lexeme)

/-- Rust str::trim on a character list. -/
def trimChars (l : List Char) : List Char :=
  ((l.dropWhile isTrimWsC).reverse.dropWhile isTrimWsC).reverse

/-- The String callback of src/lex.rs: the lexeme without its first and
last characters (the quotes), trimmed. -/
def strPayload (lexeme : List Char) : String :=
  String.mk (trimChars ((lexeme.drop 1).dropLast))

/-- The 23 keyword literal patterns of src/lex.rs with their variants. -/
def kwList : List (List Char × LuaToken) :=
  [("and".toList, .And), ("break".toList, .Break), ("continue".toList, .Continue),
   ("do".toList, .Do), ("else".toList, .Else), ("elseif".toList, .Elseif),
   ("end".toList, .End), ("false".toList, .False), ("for".toList, .For),
   ("function".toList, .Function), ("goto".toList, .Goto), ("if".toList, .If),
   ("in".toList, .In), ("local".toList, .Local), ("nil".toList, .Nil),
   ("not".toList, .Not), ("or".toList, .Or), ("repeat".toList, .Repeat),
   ("return".toList, .Return), ("then".toList, .Then), ("true".toList, .True),
   ("until".toList, .Until), ("while".toList, .While)]

/-- The 17 operator and punctuation literal patterns of src/lex.rs. -/
def opList : List (List Char × LuaToken) :=
  [("+".toList, .Plus), ("-".toList, .Minus), ("*".toList, .Multiply),
   ("/".toList, .Divide), ("%".toList, .Modulus), ("^".toList, .Exponent),
   ("==".toList, .DoubleEqual), ("=".toList, .Equal), ("~=".toList, .NotEqual),
   (">".toList, .Greater), ("<".toList, .Less), (">=".toList, .GreaterEqual),
   ("<=".toList, .LessEqual), ("..".toList, .Concatenate), ("#".toList, .Length),
   ("[".toList, .LBracket), ("]".toList, .RBracket)]

/-- All exact literal token patterns. -/
def litTable : List (List Char × LuaToken) := kwList ++ opList

/-- Keep the longer of a new matching literal and a previous candidate. -/
def pickBetter (w : List Char) (t : LuaToken) :
    Option (Nat × LuaToken) → Option (Nat × LuaToken)
  | some (n, t') => if w.length ≤ n then some (n, t') else some (w.length, t)
  | none => some (w.length, t)

/-- Longest literal of the table that is a prefix of l, with its token. -/
def pickLongest (tbl : List (List Char × LuaToken)) (l : List Char) :
    Option (Nat × LuaToken) :=
  match tbl with
  | [] => none
  | (w, t) :: rest =>
    if w.isPrefixOf l then pickBetter w t (pickLongest rest l) else pickLongest rest l

/-- Outcome of the Integer pattern on its lexeme: a conversion failure in
the callback makes logos emit an error over the span. -/
def mkIntTok (lexeme : List Char) : Except LexError LuaToken :=
  match asInt lexeme with
  | some v => .ok (.Integer v)
  | none => .error ()

/-- Outcome of the Float pattern on its lexeme. -/
def mkFloatTok (lexeme : List Char) : Except LexError LuaToken :=
  match asFloat lexeme with
  | some v => .ok (.Float v)
  | none => .error ()

/-- Candidate from the exact literal patterns. -/
def litCand (l : List Char) : Option (Nat × Except LexError LuaToken) :=
  (pickLongest litTable l).map (fun p => (p.1, Except.ok p.2))

/-- Candidate from the identifier pattern. -/
def identCand (l : List Char) : Option (Nat × Except LexError LuaToken) :=
  let n := identLen l
  if n = 0 then none else some (n, .ok (.Identifier (String.mk (l.take n))))

/-- Candidate from the string pattern. -/
def strCand (l : List Char) : Option (Nat × Except LexError LuaToken) :=
  let n := strLen l
  if n = 0 then none else some (n, .ok (.String (strPayload (l.take n))))

/-- Candidate from the integer pattern. -/
def intCand (l : List Char) : Option (Nat × Except LexError LuaToken) :=
  let n := intLen l
  if n = 0 then none else some (n, mkIntTok (l.take n))

/-- Candidate from the float pattern. -/
def floatCand (l : List Char) : Option (Nat × Except LexError LuaToken) :=
  let n := floatLen l
  if n = 0 then none else some (n, mkFloatTok (l.take n))

/-- Combine two candidates: the longer match wins; at equal length the
first argument wins.  The chain below lists the exact literal patterns
first, which realises the logos priority of an exact literal over a regex
at equal length (the reserved-word against identifier tie). -/
def better (a b : Option (Nat × Except LexError LuaToken)) :
    Option (Nat × Except LexError LuaToken) :=
  match a, b with
  | none, b => b
  | some a, none => some a
  | some (n, x), some (m, y) => if n < m then some (m, y) else some (n, x)

/-- The winning token candidate at the head of l under logos matching. -/
def tokenCand (l : List Char) : Option (Nat × Except LexError LuaToken) :=
  better (litCand l)
    (better (identCand l) (better (floatCand l) (better (intCand l) (strCand l))))

/-- One pull of the lexer on the remaining input: drop winning skip spans,
then emit the winning token (or an error over one character when nothing
matches).  The fuel only bounds the number of consecutive skip spans; every
step consumes at least one character, so remaining length plus one is
always enough. -/
def nextAux : Nat → List Char → Option (Except LexError LuaToken × List Char)
  | 0, _ => none
  | _ + 1, [] => none
  | fuel + 1, c :: r =>
    match tokenCand (c :: r) with
    | some (n, res) =>
      if skipLen (c :: r) > n then nextAux fuel ((c :: r).drop (skipLen (c :: r)))
      else some (res, (c :: r).drop n)
    | none =>
      if skipLen (c :: r) > 0 then nextAux fuel ((c :: r).drop (skipLen (c :: r)))
      else some (.error (), r)

/-- The next token call of the lexer on the remaining input. -/
def nextTok (l : List Char) : Option (Except LexError LuaToken × List Char) :=
  nextAux (l.length + 1) l

/-- Only the result of the next token call, without the rest of the input. -/
def nextResult (l : List Char) : Option (Except LexError LuaToken) :=
  (nextTok l).map Prod.fst

/-- Collect the whole token sequence (fuel bounds the number of tokens;
each token consumes at least one character). -/
def runAux : Nat → List Char → List (Except LexError LuaToken)
  | 0, _ => []
  | fuel + 1, l =>
    match nextTok l with
    | none => []
    | some (r, l') => r :: runAux fuel l'

/-- The full token sequence of a character list. -/
def tokenizeL (l : List Char) : List (Except LexError LuaToken) :=
  runAux (l.length + 1) l

/-- The full token sequence of a source string. -/
def tokenize (s : String) : List (Except LexError LuaToken) := tokenizeL s.toList

/-- A lexer instance: the borrowed source buffer and the cursor. -/
structure Lexer where
  src : List Char
  pos : Nat
deriving DecidableEq

/-- LuaToken::lexer in logos: a fresh instance over a buffer, cursor at 0. -/
def Lexer.ofSource (s : String) : Lexer := ⟨s.toList, 0⟩

/-- The input remaining at the cursor. -/
def Lexer.rest (t : Lexer) : List Char := t.src.drop t.pos

/-- The sequence produced by repeatedly calling next until exhaustion. -/
def Lexer.runAll (t : Lexer) : List (Except LexError LuaToken) :=
  tokenizeL t.rest

/-- C2 as amended, stated from the spec words: after stripping the hex
marker and the underscores, the remaining digit characters are parsed in
base 10 into the signed 64-bit range; a remaining letter digit or an
overflow is a conversion failure reported as a lexical error. -/
def specIntDecode (ds : List Char) : Except LexError LuaToken :=
  if ds.all isDigitC = true ∧ (decValue ds : Int) ≤ i64Max then
    .ok (.Integer ((decValue ds : Int)))
  else .error ()

/-- The identifier shape [a-zA-Z_][a-zA-Z_0-9]* as a whole-list predicate. -/
def identShaped (l : List Char) : Bool :=
  match l.head? with
  | some c => isIdentStartC c && (l.drop 1).all isIdentContC
  | none => false

/-- Discriminator for the Identifier variant. -/
def isIdentTok : LuaToken → Bool
  | .Identifier _ => true
  | _ => false

/-! ### Basic facts about character classes and runs -/

lemma char_eq_of_toNat_eq {c d : Char} (h : c.toNat = d.toNat) : c = d := by
  apply Char.ext
  exact UInt32.ext h

lemma takeLen_eq_length {p : Char → Bool} {l : List Char} (h : l.all p = true) :
    takeLen p l = l.length := by
  unfold takeLen
  rw [List.takeWhile_eq_self_iff.mpr (by simpa [List.all_eq_true] using h)]

lemma takeLen_cons_neg {p : Char → Bool} {c : Char} {r : List Char} (h : p c = false) :
    takeLen p (c :: r) = 0 := by
  unfold takeLen
  rw [List.takeWhile_cons_of_neg (by simp [h])]
  rfl

lemma takeLen_append_stop {p : Char → Bool} {xs ys : List Char} {y : Char}
    (h1 : xs.all p = true) (h2 : p y = false) :
    takeLen p (xs ++ y :: ys) = xs.length := by
  unfold takeLen
  rw [List.takeWhile_append_of_pos (by simpa [List.all_eq_true] using h1),
    List.takeWhile_cons_of_neg (by simp [h2])]
  simp

/-! ### Vanishing lemmas for the matchers, driven by the head character -/

lemma wsLen_zero {c : Char} {r : List Char} (h : isWsC c = false) : wsLen (c :: r) = 0 :=
  takeLen_cons_neg h

lemma lineCommentLen_zero {c : Char} {r : List Char} (h : c ≠ '-') :
    lineCommentLen (c :: r) = 0 := by
  unfold lineCommentLen
  rw [if_neg]
  intro hc
  exact h (by simpa using hc.1)

lemma blockCommentLen_zero {c : Char} {r : List Char} (h : c ≠ '-') :
    blockCommentLen (c :: r) = 0 := by
  unfold blockCommentLen
  rw [if_neg]
  intro hc
  exact h (by simpa using hc.1)

lemma shebangLen_zero {c : Char} {r : List Char} (h : c ≠ '#') :
    shebangLen (c :: r) = 0 := by
  unfold shebangLen
  rw [if_neg]
  intro hc
  exact h (by simpa using hc.1)

lemma skipLen_zero {c : Char} {r : List Char}
    (h1 : isWsC c = false) (h2 : c ≠ '-') (h3 : c ≠ '#') : skipLen (c :: r) = 0 := by
  unfold skipLen
  rw [wsLen_zero h1, lineCommentLen_zero h2, blockCommentLen_zero h2, shebangLen_zero h3]
  simp

lemma identLen_zero {c : Char} {r : List Char} (h : isIdentStartC c = false) :
    identLen (c :: r) = 0 := by
  simp [identLen, h]

lemma strQuoteLen_zero {q c : Char} {r : List Char} (h : c ≠ q) :
    strQuoteLen q (c :: r) = 0 := by
  unfold strQuoteLen
  rw [if_neg]
  simpa using h

lemma strLen_zero {c : Char} {r : List Char} (h1 : c ≠ '"') (h2 : c ≠ '\'') :
    strLen (c :: r) = 0 := by
  unfold strLen
  rw [strQuoteLen_zero h1, strQuoteLen_zero h2]
  simp

lemma decRunLen_zero {c : Char} {r : List Char} (h : isDigitC c = false) :
    decRunLen (c :: r) = 0 := by
  simp [decRunLen, h]

lemma hexRunLen_zero {c : Char} {r : List Char} (h : isHexDigitC c = false) :
    hexRunLen (c :: r) = 0 := by
  simp [hexRunLen, h]

lemma hexIntLen_zero {c : Char} {r : List Char} (h : c ≠ '0') :
    hexIntLen (c :: r) = 0 := by
  unfold hexIntLen
  rw [if_neg]
  intro hc
  exact h (by simpa using hc.1)

lemma hexFloatLen_zero {c : Char} {r : List Char} (h : c ≠ '0') :
    hexFloatLen (c :: r) = 0 := by
  unfold hexFloatLen
  rw [if_neg]
  intro hc
  exact h (by simpa using hc.1)

lemma intLen_zero {c : Char} {r : List Char} (h1 : isDigitC c = false) (h2 : c ≠ '0') :
    intLen (c :: r) = 0 := by
  unfold intLen
  rw [decRunLen_zero h1, hexIntLen_zero h2]
  simp

lemma floatLen_zero {c : Char} {r : List Char} (h1 : isDigitC c = false) (h2 : c ≠ '0') :
    floatLen (c :: r) = 0 := by
  unfold floatLen decFloatLen
  rw [decRunLen_zero h1, hexFloatLen_zero h2]
  simp

/-! ### Emission plumbing: from a computed winning candidate to the output -/

lemma identCand_zero {l : List Char} (h : identLen l = 0) : identCand l = none := by
  simp [identCand, h]

lemma strCand_zero {l : List Char} (h : strLen l = 0) : strCand l = none := by
  simp [strCand, h]

lemma intCand_zero {l : List Char} (h : intLen l = 0) : intCand l = none := by
  simp [intCand, h]

lemma floatCand_zero {l : List Char} (h : floatLen l = 0) : floatCand l = none := by
  simp [floatCand, h]

lemma nextTok_emit {l : List Char} {res : Except LexError LuaToken}
    (hne : l ≠ []) (hskip : skipLen l = 0)
    (hcand : tokenCand l = some (l.length, res)) :
    nextTok l = some (res, []) := by
  obtain ⟨c, r, rfl⟩ := List.exists_cons_of_ne_nil hne
  show nextAux ((c :: r).length + 1) (c :: r) = _
  rw [nextAux, hcand, hskip]
  simp [List.drop_length]

lemma nextTok_stuck {l : List Char}
    (hne : l ≠ []) (hskip : skipLen l = 0) (hcand : tokenCand l = none) :
    nextResult l = some (.error ()) := by
  obtain ⟨c, r, rfl⟩ := List.exists_cons_of_ne_nil hne
  unfold nextResult nextTok
  rw [nextAux, hcand, hskip]
  simp

lemma runAux_nil (f : Nat) : runAux f [] = [] := by
  cases f with
  | zero => rfl
  | succ f => simp [runAux, nextTok, nextAux]

lemma tokenizeL_single {l : List Char} {res : Except LexError LuaToken}
    (hne : l ≠ []) (hskip : skipLen l = 0)
    (hcand : tokenCand l = some (l.length, res)) :
    tokenizeL l = [res] := by
  unfold tokenizeL
  rw [runAux, nextTok_emit hne hskip hcand]
  simp [runAux_nil]

/-! ### Longest-literal selection -/

lemma isPrefixOf_head {w : List Char} {c : Char} {cs : List Char}
    (h : w.isPrefixOf (c :: cs) = true) : w = [] ∨ w.head? = some c := by
  rw [ List.isPrefixOf_iff_prefix] at h
  cases w with
  | nil => exact Or.inl rfl
  | cons a w' =>
    obtain ⟨t, ht⟩ := h
    rw [List.cons_append] at ht
    injection ht with h1 _
    exact Or.inr (by simp [h1])

lemma pickLongest_eq_none {tbl : List (List Char × LuaToken)} {l : List Char}
    (h : ∀ p ∈ tbl, p.1.isPrefixOf l = false) : pickLongest tbl l = none := by
  induction tbl with
  | nil => rfl
  | cons a rest ih =>
    obtain ⟨w, t⟩ := a
    have hw := h (w, t) (List.mem_cons_self _ _)
    simp only [pickLongest]
    simp [hw, ih (fun p hp => h p (List.mem_cons_of_mem _ hp))]

lemma pickLongest_mem {tbl : List (List Char × LuaToken)} {l : List Char} {n : Nat}
    {t : LuaToken} (h : pickLongest tbl l = some (n, t)) :
    ∃ w, (w, t) ∈ tbl ∧ w.isPrefixOf l = true ∧ w.length = n := by
  induction tbl generalizing n t with
  | nil => simp [pickLongest] at h
  | cons a rest ih =>
    obtain ⟨w, tw⟩ := a
    simp only [pickLongest] at h
    by_cases hp : w.isPrefixOf l
    · rw [if_pos hp] at h
      cases hr : pickLongest rest l with
      | none =>
        rw [hr] at h
        simp only [pickBetter, Option.some.injEq, Prod.mk.injEq] at h
        refine ⟨w, ?_, hp, h.1⟩
        rw [← h.2]
        exact List.mem_cons_self _ _
      | some p =>
        obtain ⟨m, t'⟩ := p
        rw [hr] at h
        simp only [pickBetter] at h
        by_cases hle : w.length ≤ m
        · rw [if_pos hle] at h
          obtain ⟨w', hmem, hpre, hlen⟩ := ih (hr.trans h)
          exact ⟨w', List.mem_cons_of_mem _ hmem, hpre, hlen⟩
        · rw [if_neg hle] at h
          simp only [Option.some.injEq, Prod.mk.injEq] at h
          refine ⟨w, ?_, hp, h.1⟩
          rw [← h.2]
          exact List.mem_cons_self _ _
    · rw [if_neg hp] at h
      obtain ⟨w', hmem, hpre, hlen⟩ := ih h
      exact ⟨w', List.mem_cons_of_mem _ hmem, hpre, hlen⟩

lemma pickLongest_ge {tbl : List (List Char × LuaToken)} {l w : List Char} {t : LuaToken}
    (hmem : (w, t) ∈ tbl) (hp : w.isPrefixOf l = true) :
    ∃ n t', pickLongest tbl l = some (n, t') ∧ w.length ≤ n := by
  induction tbl with
  | nil => simp at hmem
  | cons a rest ih =>
    obtain ⟨w0, t0⟩ := a
    simp only [pickLongest]
    rcases List.mem_cons.mp hmem with heq | htail
    · injection heq with h1 h2
      subst h1
      subst h2
      rw [if_pos hp]
      cases hr : pickLongest rest l with
      | none => exact ⟨w.length, t, by simp [pickBetter], le_refl _⟩
      | some p =>
        obtain ⟨m, t'⟩ := p
        by_cases hle : w.length ≤ m
        · exact ⟨m, t', by simp [pickBetter, if_pos hle], hle⟩
        · exact ⟨w.length, t, by simp [pickBetter, if_neg hle], le_refl _⟩
    · obtain ⟨n, t', hpl, hlen⟩ := ih htail
      rw [hpl]
      by_cases hp0 : w0.isPrefixOf l
      · rw [if_pos hp0]
        by_cases hle : w0.length ≤ n
        · exact ⟨n, t', by simp [pickBetter, if_pos hle], hlen⟩
        · exact ⟨w0.length, t0, by simp [pickBetter, if_neg hle],
            le_trans hlen (le_of_not_le hle)⟩
      · rw [if_neg hp0]
        exact ⟨n, t', rfl, hlen⟩

lemma mem_key_unique {tbl : List (List Char × LuaToken)}
    (hnd : (tbl.map Prod.fst).Nodup) {w : List Char} {t t' : LuaToken}
    (h1 : (w, t) ∈ tbl) (h2 : (w, t') ∈ tbl) : t = t' := by
  induction tbl with
  | nil => simp at h1
  | cons a rest ih =>
    simp only [List.map_cons, List.nodup_cons] at hnd
    rcases List.mem_cons.mp h1 with he1 | ht1 <;> rcases List.mem_cons.mp h2 with he2 | ht2
    · rw [← he1] at he2
      exact congrArg Prod.snd he2.symm
    · exfalso
      apply hnd.1
      have hm : w ∈ rest.map Prod.fst := List.mem_map_of_mem Prod.fst ht2
      rw [← he1]
      exact hm
    · exfalso
      apply hnd.1
      have hm : w ∈ rest.map Prod.fst := List.mem_map_of_mem Prod.fst ht1
      rw [← he2]
      exact hm
    · exact ih hnd.2 ht1 ht2

lemma litTable_keys_nodup : (litTable.map Prod.fst).Nodup := by decide

lemma litTable_heads_not_digit :
    litTable.all (fun p => match p.1.head? with
      | some d => !isDigitC d
      | none => false) = true := by decide

lemma litTable_heads_not_quote :
    litTable.all (fun p => match p.1.head? with
      | some d => !(d == '"') && !(d == '\'')
      | none => false) = true := by decide

lemma litCand_none_digit {c : Char} {cs : List Char} (hc : isDigitC c = true) :
    litCand (c :: cs) = none := by
  unfold litCand
  rw [pickLongest_eq_none]
  · rfl
  · intro p hp
    have hfact := List.all_eq_true.mp litTable_heads_not_digit p hp
    cases hpre : p.1.isPrefixOf (c :: cs) with
    | false => rfl
    | true =>
      exfalso
      rcases isPrefixOf_head hpre with hnil | hhd
      · rw [hnil] at hfact
        simp at hfact
      · rw [hhd] at hfact
        simp [hc] at hfact

lemma litCand_none_quote {c : Char} {cs : List Char} (hc : c = '"' ∨ c = '\'') :
    litCand (c :: cs) = none := by
  unfold litCand
  rw [pickLongest_eq_none]
  · rfl
  · intro p hp
    have hfact := List.all_eq_true.mp litTable_heads_not_quote p hp
    cases hpre : p.1.isPrefixOf (c :: cs) with
    | false => rfl
    | true =>
      exfalso
      rcases isPrefixOf_head hpre with hnil | hhd
      · rw [hnil] at hfact
        simp at hfact
      · rw [hhd] at hfact
        rcases hc with rfl | rfl <;> simp at hfact

/-! ### Head-character facts -/

lemma isIdentStartC_facts {c : Char} (h : isIdentStartC c = true) :
    isDigitC c = false ∧ isWsC c = false ∧ c ≠ '-' ∧ c ≠ '#' ∧ c ≠ '"' ∧ c ≠ '\'' ∧
      c ≠ '0' := by
  simp only [isIdentStartC, decide_eq_true_eq] at h
  refine ⟨?_, ?_, ?_, ?_, ?_, ?_, ?_⟩
  · simp only [isDigitC, decide_eq_false_iff_not]
    omega
  · simp only [isWsC, decide_eq_false_iff_not]
    omega
  all_goals rintro rfl
  all_goals exact absurd h (by decide)

lemma isDigitC_facts {c : Char} (h : isDigitC c = true) :
    isIdentStartC c = false ∧ isWsC c = false ∧ c ≠ '-' ∧ c ≠ '#' ∧ c ≠ '"' ∧ c ≠ '\'' := by
  simp only [isDigitC, decide_eq_true_eq] at h
  refine ⟨?_, ?_, ?_, ?_, ?_, ?_⟩
  · simp only [isIdentStartC, decide_eq_false_iff_not]
    omega
  · simp only [isWsC, decide_eq_false_iff_not]
    omega
  all_goals rintro rfl
  all_goals exact absurd h (by decide)

/-! ### The identifier shape: computation of every matcher -/

lemma identLen_full {c : Char} {r : List Char}
    (h1 : isIdentStartC c = true) (h2 : r.all isIdentContC = true) :
    identLen (c :: r) = r.length + 1 := by
  simp [identLen, h1, takeLen_eq_length h2, Nat.add_comm]

lemma identCand_full {c : Char} {r : List Char}
    (h1 : isIdentStartC c = true) (h2 : r.all isIdentContC = true) :
    identCand (c :: r) =
      some ((c :: r).length, .ok (.Identifier (String.mk (c :: r)))) := by
  unfold identCand
  have hlen : r.length + 1 = (c :: r).length := by simp
  rw [identLen_full h1 h2, hlen]
  simp [List.take_length]

lemma better_none_right (a : Option (Nat × Except LexError LuaToken)) :
    better a none = a := by
  cases a with
  | none => rfl
  | some p => obtain ⟨n, x⟩ := p; rfl

lemma better_some_some (n : Nat) (x : Except LexError LuaToken) (m : Nat)
    (y : Except LexError LuaToken) :
    better (some (n, x)) (some (m, y)) = if n < m then some (m, y) else some (n, x) := rfl

lemma opList_not_identShaped :
    opList.all (fun p => !identShaped p.1) = true := by decide

lemma kwList_not_identTok :
    kwList.all (fun p => !isIdentTok p.2) = true := by decide

lemma litCand_keyword {s : List Char} {t : LuaToken} (hmem : (s, t) ∈ kwList) :
    litCand s = some (s.length, .ok t) := by
  unfold litCand
  have hmem' : (s, t) ∈ litTable := List.mem_append_left _ hmem
  have hp : s.isPrefixOf s = true := List.isPrefixOf_iff_prefix.mpr (List.prefix_refl s)
  obtain ⟨n, t', hpl, hge⟩ := pickLongest_ge hmem' hp
  obtain ⟨w, hwmem, hwpre, hwlen⟩ := pickLongest_mem hpl
  have hle : w.length ≤ s.length := ( List.isPrefixOf_iff_prefix.mp hwpre).length_le
  have hn : n = s.length := by omega
  have hw : w = s := ( List.isPrefixOf_iff_prefix.mp hwpre).eq_of_length (by omega)
  rw [hw] at hwmem
  have ht : t' = t := mem_key_unique litTable_keys_nodup hwmem hmem'
  rw [hpl, hn, ht]
  rfl

lemma litCand_not_kw {s : List Char} (hsh : identShaped s = true)
    (hnk : s ∉ kwList.map Prod.fst) :
    litCand s = none ∨ ∃ n e, litCand s = some (n, e) ∧ n < s.length := by
  cases hpl : pickLongest litTable s with
  | none =>
    left
    simp [litCand, hpl]
  | some p =>
    obtain ⟨n, t'⟩ := p
    right
    refine ⟨n, .ok t', by simp [litCand, hpl], ?_⟩
    obtain ⟨w, hwmem, hwpre, hwlen⟩ := pickLongest_mem hpl
    have hle : w.length ≤ s.length := ( List.isPrefixOf_iff_prefix.mp hwpre).length_le
    rcases lt_or_eq_of_le hle with hlt | heq
    · omega
    · exfalso
      have hw : w = s := ( List.isPrefixOf_iff_prefix.mp hwpre).eq_of_length heq
      rw [hw] at hwmem
      rcases List.mem_append.mp hwmem with hkw | hop
      · exact hnk (List.mem_map_of_mem Prod.fst hkw)
      · have hfact := List.all_eq_true.mp opList_not_identShaped _ hop
        rw [hsh] at hfact
        simp at hfact

lemma tokenCand_ident {c : Char} {r : List Char}
    (h1 : isIdentStartC c = true) (h2 : r.all isIdentContC = true) :
    (∀ t, ((c :: r), t) ∈ kwList → tokenCand (c :: r) = some ((c :: r).length, .ok t)) ∧
    ((c :: r) ∉ kwList.map Prod.fst →
      tokenCand (c :: r) =
        some ((c :: r).length, .ok (.Identifier (String.mk (c :: r))))) := by
  have facts := isIdentStartC_facts h1
  have hstr : strCand (c :: r) = none :=
    strCand_zero (strLen_zero facts.2.2.2.2.1 facts.2.2.2.2.2.1)
  have hint : intCand (c :: r) = none :=
    intCand_zero (intLen_zero facts.1 facts.2.2.2.2.2.2)
  have hflt : floatCand (c :: r) = none :=
    floatCand_zero (floatLen_zero facts.1 facts.2.2.2.2.2.2)
  have hid := identCand_full h1 h2
  constructor
  · intro t hmem
    have hlit := litCand_keyword hmem
    unfold tokenCand
    rw [hlit, hid, hstr, hint, hflt]
    simp only [better_none_right]
    rw [better_some_some, if_neg (lt_irrefl _)]
  · intro hnk
    have hsh : identShaped (c :: r) = true := by
      simp [identShaped, h1, h2]
    unfold tokenCand
    rcases litCand_not_kw hsh hnk with hlit | ⟨n, e, hlit, hlt⟩
    · rw [hlit, hid, hstr, hint, hflt]
      simp only [better_none_right]
      rfl
    · rw [hlit, hid, hstr, hint, hflt]
      simp only [better_none_right]
      rw [better_some_some, if_pos hlt]

/-- C1 (amended): an identifier-shaped lexeme in reserved-word position:
when it is one of the 23 reserved words of the table, lexing it alone
yields exactly its keyword token (which is not an Identifier token), and
when it is not a reserved word it yields exactly the Identifier token
carrying the lexeme itself.  No lexeme is classified as both. -/
theorem keyword_iff_reserved (s : List Char) (h : identShaped s = true) :
    (∀ t, (s, t) ∈ kwList → tokenizeL s = [Except.ok t] ∧ isIdentTok t = false) ∧
    (s ∉ kwList.map Prod.fst →
      tokenizeL s = [Except.ok (LuaToken.Identifier (String.mk s))]) := by
  cases s with
  | nil => simp [identShaped] at h
  | cons c r =>
    have h' := h
    simp only [identShaped, List.head?_cons, List.drop_one, List.tail_cons,
      Bool.and_eq_true] at h'
    obtain ⟨h1, h2⟩ := h'
    have facts := isIdentStartC_facts h1
    have hskip : skipLen (c :: r) = 0 :=
      skipLen_zero facts.2.1 facts.2.2.1 facts.2.2.2.1
    constructor
    · intro t hmem
      refine ⟨tokenizeL_single (by simp) hskip ((tokenCand_ident h1 h2).1 t hmem), ?_⟩
      have hfact := List.all_eq_true.mp kwList_not_identTok _ hmem
      simpa using hfact
    · intro hnk
      exact tokenizeL_single (by simp) hskip ((tokenCand_ident h1 h2).2 hnk)

/-- Witness for the C1 theorem at the reserved word spelled a n d and at
the plain identifier foo. -/
theorem keyword_iff_reserved_witness :
    identShaped ("and".toList) = true ∧ tokenize "and" = [Except.ok LuaToken.And] ∧
      identShaped ("foo".toList) = true ∧
      tokenize "foo" = [Except.ok (LuaToken.Identifier "foo")] := by
  refine ⟨by decide, ?_, by decide, ?_⟩
  · have h := (keyword_iff_reserved ("and".toList) (by decide)).1 LuaToken.And (by decide)
    exact h.1
  · have h := (keyword_iff_reserved ("foo".toList) (by decide)).2 (by decide)
    exact h

/-- C1 counterexample: the reserved-word table of the code has 23 entries,
not 22; the word continue (absent from standard Lua) is reserved here and
lexes as its keyword token, never as an Identifier. -/
theorem reserved_words_are_23 :
    kwList.length = 23 ∧ ¬ kwList.length = 22 ∧
      tokenize "continue" = [Except.ok LuaToken.Continue] ∧
      tokenize "continue" ≠ [Except.ok (LuaToken.Identifier "continue")] := by decide

/-- C2 counterexample: the integer conversion strips the hex marker but
parses the remaining digits in base 10, so the lexeme 0x10 yields the
Integer value ten, not sixteen, and a lexeme with a letter digit such as
0xA fails conversion and yields a lexical error. -/
theorem hex_integer_not_base16 :
    tokenize "0x10" = [Except.ok (LuaToken.Integer 10)] ∧
      tokenize "0x10" ≠ [Except.ok (LuaToken.Integer 16)] ∧
      tokenize "0xA" = [Except.error ()] := by decide

/-- C4: the block-comment skip pattern allows exactly one interior
character, so the multi-line example is not skipped: its interior words lex
as identifiers.  With a single interior character the span is skipped. -/
theorem block_comment_single_char_only :
    tokenize "--[[ line one\nline two --]]\nid" =
      [Except.ok (LuaToken.Identifier "line"), Except.ok (LuaToken.Identifier "two"),
        Except.ok (LuaToken.Identifier "id")] ∧
      tokenize "--[[\n--]]id" = [Except.ok (LuaToken.Identifier "id")] := by decide

/-- C8: the token sequence is a function of the source buffer alone: two
lexer instances constructed over identical buffers produce identical
sequences, each equal to the sequence of the buffer itself. -/
theorem tokenizer_deterministic (s1 s2 : String) (h : s1 = s2) :
    (Lexer.ofSource s1).runAll = (Lexer.ofSource s2).runAll ∧
      (Lexer.ofSource s1).runAll = tokenize s1 := by
  rw [h]
  exact ⟨rfl, rfl⟩

/-- Witness for the C8 theorem on a small program. -/
theorem tokenizer_deterministic_witness :
    ("local x = 1" : String) = "local x = 1" ∧
      (Lexer.ofSource "local x = 1").runAll = (Lexer.ofSource "local x = 1").runAll :=
  ⟨rfl, (tokenizer_deterministic "local x = 1" "local x = 1" rfl).1⟩

/-- C10: a trailing underscore is accepted by the integer pattern and
stripped before conversion. -/
theorem trailing_underscore_integer :
    tokenize "1_" = [Except.ok (LuaToken.Integer 1)] := by decide

/-! ### String-literal shapes -/

lemma strQuoteLen_full {q : Char} {c : List Char}
    (hc : c.all (fun d => d != q && d != '\n') = true) :
    strQuoteLen q (q :: (c ++ [q])) = c.length + 2 := by
  have hstop : ((fun d : Char => d != q && d != '\n') q) = false := by simp
  have hinner :
      takeLen (fun d => d != q && d != '\n') ((q :: (c ++ [q])).drop 1) = c.length := by
    rw [List.drop_one, List.tail_cons]
    exact takeLen_append_stop hc hstop
  simp only [strQuoteLen]
  have hhead : (q :: (c ++ [q])).head? = some q := rfl
  rw [if_pos hhead, hinner]
  have hdrop : (q :: (c ++ [q])).drop (1 + c.length) = [q] := by
    have h1 : 1 + c.length = c.length + 1 := by omega
    rw [h1, List.drop_succ_cons]
    exact List.drop_left c [q]
  rw [hdrop]
  simp

lemma strQuoteLen_unterminated {q : Char} {rest : List Char}
    (hstop : ¬ (rest.drop (takeLen (fun d => d != q && d != '\n') rest)).head? = some q) :
    strQuoteLen q (q :: rest) = 0 := by
  simp only [strQuoteLen]
  have hhead : (q :: rest).head? = some q := rfl
  rw [if_pos hhead]
  have hd1 : (q :: rest).drop 1 = rest := rfl
  rw [hd1]
  rw [if_neg]
  intro hcontra
  apply hstop
  have h1 : 1 + takeLen (fun d => d != q && d != '\n') rest =
      takeLen (fun d => d != q && d != '\n') rest + 1 := by omega
  rw [h1, List.drop_succ_cons] at hcontra
  exact hcontra

lemma tokenize_string_shape {q : Char} {c : List Char}
    (hq1 : isWsC q = false) (hq2 : q ≠ '-') (hq3 : q ≠ '#')
    (hq4 : isIdentStartC q = false) (hq5 : isDigitC q = false) (hq6 : q ≠ '0')
    (hlit : litCand (q :: (c ++ [q])) = none)
    (hstr : strLen (q :: (c ++ [q])) = (q :: (c ++ [q])).length) :
    tokenizeL (q :: (c ++ [q])) =
      [Except.ok (LuaToken.String (String.mk (trimChars c)))] := by
  refine tokenizeL_single (by simp) (skipLen_zero hq1 hq2 hq3) ?_
  have hpayload : strPayload (q :: (c ++ [q])) = String.mk (trimChars c) := by
    unfold strPayload
    rw [List.drop_one, List.tail_cons, List.dropLast_concat]
  have hstrc : strCand (q :: (c ++ [q])) =
      some ((q :: (c ++ [q])).length, .ok (.String (String.mk (trimChars c)))) := by
    simp only [strCand, hstr]
    rw [if_neg (by simp), List.take_length, hpayload]
  unfold tokenCand
  rw [hstrc, hlit, identCand_zero (identLen_zero hq4),
    intCand_zero (intLen_zero hq5 hq6), floatCand_zero (floatLen_zero hq5 hq6)]
  rfl

/-- C5: a string literal delimited by a matching pair of quotes, with no
newline and no delimiter among the content, lexes to exactly one String
token whose payload is the inner text with leading and trailing whitespace
trimmed. -/
theorem string_literal_trimmed (q : Char) (c : List Char)
    (hq : q = '"' ∨ q = '\'')
    (hc : c.all (fun d => d != q && d != '\n') = true) :
    tokenizeL (q :: (c ++ [q])) =
      [Except.ok (LuaToken.String (String.mk (trimChars c)))] := by
  have hfull := strQuoteLen_full hc
  rcases hq with rfl | rfl
  · refine tokenize_string_shape (by decide) (by decide) (by decide) (by decide)
      (by decide) (by decide) (litCand_none_quote (Or.inl rfl)) ?_
    unfold strLen
    rw [hfull, strQuoteLen_zero (show ('"' : Char) ≠ '\'' by decide)]
    simp
  · refine tokenize_string_shape (by decide) (by decide) (by decide) (by decide)
      (by decide) (by decide) (litCand_none_quote (Or.inr rfl)) ?_
    unfold strLen
    rw [hfull, strQuoteLen_zero (show ('\'' : Char) ≠ '"' by decide)]
    simp

/-- Witness for the C5 theorem: single quotes around padded text trim to
the bare text. -/
theorem string_literal_trimmed_witness :
    (('\'' : Char) = '"' ∨ ('\'' : Char) = '\'') ∧
      tokenize "'  hello world  '" = [Except.ok (LuaToken.String "hello world")] := by
  refine ⟨Or.inr rfl, ?_⟩
  have h := string_literal_trimmed '\'' ("  hello world  ".toList) (Or.inr rfl) (by decide)
  have heq : "'  hello world  '".toList = '\'' :: ("  hello world  ".toList ++ ['\'']) := by
    decide
  unfold tokenize
  rw [heq, h]
  decide

/-- C6: when a quote is opened and the scan of its content stops (at a
newline or at the end of input) without the matching closing quote, the
next pull of the lexer returns a lexical error, not a String token. -/
theorem unterminated_string_error (q : Char) (rest : List Char)
    (hq : q = '"' ∨ q = '\'')
    (hstop : ¬ (rest.drop (takeLen (fun d => d != q && d != '\n') rest)).head? = some q) :
    nextResult (q :: rest) = some (Except.error ()) := by
  have hz := strQuoteLen_unterminated hstop
  rcases hq with rfl | rfl
  · refine nextTok_stuck (by simp) (skipLen_zero (by decide) (by decide) (by decide)) ?_
    have hsl : strLen ('"' :: rest) = 0 := by
      unfold strLen
      rw [hz, strQuoteLen_zero (show ('"' : Char) ≠ '\'' by decide)]
      simp
    unfold tokenCand
    rw [litCand_none_quote (Or.inl rfl), identCand_zero (identLen_zero (by decide)),
      intCand_zero (intLen_zero (by decide) (by decide)),
      floatCand_zero (floatLen_zero (by decide) (by decide)), strCand_zero hsl]
    rfl
  · refine nextTok_stuck (by simp) (skipLen_zero (by decide) (by decide) (by decide)) ?_
    have hsl : strLen ('\'' :: rest) = 0 := by
      unfold strLen
      rw [hz, strQuoteLen_zero (show ('\'' : Char) ≠ '"' by decide)]
      simp
    unfold tokenCand
    rw [litCand_none_quote (Or.inr rfl), identCand_zero (identLen_zero (by decide)),
      intCand_zero (intLen_zero (by decide) (by decide)),
      floatCand_zero (floatLen_zero (by decide) (by decide)), strCand_zero hsl]
    rfl

/-- Witness for the C6 theorem: a single-quoted literal with an embedded
newline before its closing quote errors at once. -/
theorem unterminated_string_error_witness :
    (('\'' : Char) = '"' ∨ ('\'' : Char) = '\'') ∧
      nextResult ("'abc\ndef'".toList) = some (Except.error ()) := by
  refine ⟨Or.inr rfl, ?_⟩
  have heq : "'abc\ndef'".toList = '\'' :: "abc\ndef'".toList := by decide
  rw [heq]
  exact unterminated_string_error '\'' ("abc\ndef'".toList) (Or.inr rfl) (by decide)

lemma trimWs_ne_quote {d : Char} (h : isTrimWsC d = true) : d ≠ '"' ∧ d ≠ '\'' := by
  constructor <;> rintro rfl <;> exact absurd h (by decide)

lemma trimChars_eq_nil {c : List Char} (h : c.all isTrimWsC = true) : trimChars c = [] := by
  have h1 : c.dropWhile isTrimWsC = [] :=
    List.dropWhile_eq_nil_iff.mpr (by simpa [List.all_eq_true] using h)
  unfold trimChars
  rw [h1]
  rfl

/-- C9: a string literal whose inner text between the quotes consists only
of whitespace (and holds no newline, which would leave the literal
unterminated instead) lexes to a String token whose payload is the empty
string: the trim normalization removes the entire content. -/
theorem whitespace_string_trims_to_empty (q : Char) (c : List Char)
    (hq : q = '"' ∨ q = '\'')
    (hws : c.all isTrimWsC = true) (hnl : c.all (fun d => d != '\n') = true) :
    tokenizeL (q :: (c ++ [q])) = [Except.ok (LuaToken.String "")] := by
  have hc : c.all (fun d => d != q && d != '\n') = true := by
    rw [List.all_eq_true] at hws hnl ⊢
    intro d hd
    have h1 := hws d hd
    have h2 := hnl d hd
    simp only [bne_iff_ne, ne_eq] at h2
    simp only [Bool.and_eq_true, bne_iff_ne, ne_eq]
    refine ⟨?_, h2⟩
    rcases hq with rfl | rfl
    · exact (trimWs_ne_quote h1).1
    · exact (trimWs_ne_quote h1).2
  have hfull := strQuoteLen_full hc
  have htrim : trimChars c = [] := trimChars_eq_nil hws
  rcases hq with rfl | rfl
  · have hstr : strLen ('"' :: (c ++ ['"'])) = ('"' :: (c ++ ['"'])).length := by
      unfold strLen
      rw [hfull, strQuoteLen_zero (show ('"' : Char) ≠ '\'' by decide)]
      simp
    rw [tokenize_string_shape (by decide) (by decide) (by decide) (by decide)
      (by decide) (by decide) (litCand_none_quote (Or.inl rfl)) hstr, htrim]
  · have hstr : strLen ('\'' :: (c ++ ['\''])) = ('\'' :: (c ++ ['\''])).length := by
      unfold strLen
      rw [hfull, strQuoteLen_zero (show ('\'' : Char) ≠ '"' by decide)]
      simp
    rw [tokenize_string_shape (by decide) (by decide) (by decide) (by decide)
      (by decide) (by decide) (litCand_none_quote (Or.inr rfl)) hstr, htrim]

/-- Witness for the C9 theorem at the literal holding three spaces. -/
theorem whitespace_string_trims_to_empty_witness :
    (('\'' : Char) = '"' ∨ ('\'' : Char) = '\'') ∧
      tokenize "'   '" = [Except.ok (LuaToken.String "")] := by
  refine ⟨Or.inr rfl, ?_⟩
  have h := whitespace_string_trims_to_empty '\'' ("   ".toList) (Or.inr rfl)
    (by decide) (by decide)
  have heq : "'   '".toList = '\'' :: ("   ".toList ++ ['\'']) := by decide
  unfold tokenize
  rw [heq, h]

/-! ### Decimal digit runs and the integer conversion -/

lemma digit_ne_x {c : Char} (h : isDigitC c = true) : c ≠ 'x' := by
  rintro rfl
  exact absurd h (by decide)

lemma digit_ne_X {c : Char} (h : isDigitC c = true) : c ≠ 'X' := by
  rintro rfl
  exact absurd h (by decide)

lemma digit_ne_und {c : Char} (h : isDigitC c = true) : (c != '_') = true := by
  simp only [bne_iff_ne, ne_eq]
  rintro rfl
  exact absurd h (by decide)

lemma trimStart0x_of_no_x {l : List Char} (h : ∀ d ∈ l, d ≠ 'x') : trimStart0x l = l := by
  rw [trimStart0x.eq_def]
  split
  next r => exact absurd rfl (h 'x' (by simp))
  next => rfl

lemma trimStart0X_of_no_X {l : List Char} (h : ∀ d ∈ l, d ≠ 'X') : trimStart0X l = l := by
  rw [trimStart0X.eq_def]
  split
  next r => exact absurd rfl (h 'X' (by simp))
  next => rfl

lemma all_digit_digitUnd {r : List Char} (h : r.all isDigitC = true) :
    r.all isDigitUndC = true := by
  rw [List.all_eq_true] at h ⊢
  intro a ha
  simp [isDigitUndC, h a ha]

lemma decRunLen_full {c : Char} {r : List Char}
    (hc : isDigitC c = true) (hr : r.all isDigitUndC = true) :
    decRunLen (c :: r) = r.length + 1 := by
  simp [decRunLen, hc, takeLen_eq_length hr, Nat.add_comm]

lemma hexCond_false_of_digits {c : Char} {r : List Char} (hr : r.all isDigitC = true) :
    ¬((c :: r).head? = some '0' ∧
      (((c :: r).drop 1).head? = some 'x' ∨ ((c :: r).drop 1).head? = some 'X')) := by
  rintro ⟨h0, hx⟩
  cases r with
  | nil => simp at hx
  | cons d r' =>
    have hd : isDigitC d = true := (List.all_eq_true.mp hr) d (by simp)
    rcases hx with hx | hx <;> simp at hx
    · exact digit_ne_x hd hx
    · exact digit_ne_X hd hx

lemma hexIntLen_zero_digits {c : Char} {r : List Char} (hr : r.all isDigitC = true) :
    hexIntLen (c :: r) = 0 := by
  unfold hexIntLen
  rw [if_neg (hexCond_false_of_digits hr)]

lemma hexFloatLen_zero_digits {c : Char} {r : List Char} (hr : r.all isDigitC = true) :
    hexFloatLen (c :: r) = 0 := by
  unfold hexFloatLen
  rw [if_neg (hexCond_false_of_digits hr)]

lemma decFloatLen_zero_nodot {l : List Char} (ha : decRunLen l ≠ 0)
    (hd : (l.drop (decRunLen l)).head? ≠ some '.') : decFloatLen l = 0 := by
  simp only [decFloatLen]
  rw [if_neg ha, if_neg hd]

lemma tokenCand_digit_run {c : Char} {r : List Char}
    (hc : isDigitC c = true) (hr : r.all isDigitC = true) :
    tokenCand (c :: r) = some ((c :: r).length, mkIntTok (c :: r)) := by
  have facts := isDigitC_facts hc
  have hdec : decRunLen (c :: r) = r.length + 1 := decRunLen_full hc (all_digit_digitUnd hr)
  have hint : intLen (c :: r) = (c :: r).length := by
    unfold intLen
    rw [hdec, hexIntLen_zero_digits hr]
    simp
  have hflt : floatLen (c :: r) = 0 := by
    have ha : decRunLen (c :: r) ≠ 0 := by
      rw [hdec]
      omega
    have hd2 : ((c :: r).drop (decRunLen (c :: r))).head? ≠ some '.' := by
      rw [hdec, List.drop_succ_cons, List.drop_length]
      simp
    unfold floatLen
    rw [hexFloatLen_zero_digits hr, decFloatLen_zero_nodot ha hd2]
    simp
  have hintc : intCand (c :: r) = some ((c :: r).length, mkIntTok (c :: r)) := by
    simp only [intCand, hint]
    rw [if_neg (by simp), List.take_length]
  unfold tokenCand
  rw [hintc, litCand_none_digit hc, identCand_zero (identLen_zero facts.1),
    strCand_zero (strLen_zero facts.2.2.2.2.1 facts.2.2.2.2.2),
    floatCand_zero hflt]
  rfl

lemma stripNum_digits {c : Char} {r : List Char}
    (hc : isDigitC c = true) (hr : r.all isDigitC = true) :
    stripNum (c :: r) = c :: r := by
  have hall : ∀ d ∈ (c :: r), isDigitC d = true := by
    intro d hd
    rcases List.mem_cons.mp hd with rfl | hd
    · exact hc
    · exact (List.all_eq_true.mp hr) d hd
  unfold stripNum
  rw [trimStart0x_of_no_x (fun d hd => digit_ne_x (hall d hd)),
    trimStart0X_of_no_X (fun d hd => digit_ne_X (hall d hd)),
    List.filter_eq_self.mpr (fun d hd => digit_ne_und (hall d hd))]

lemma parseI64_digits {c : Char} {r : List Char}
    (hc : isDigitC c = true) (hr : r.all isDigitC = true) :
    parseI64 (c :: r) =
      if (decValue (c :: r) : Int) ≤ i64Max then some ((decValue (c :: r) : Int))
      else none := by
  have hcm : ¬((c :: r).head? = some '-') := by
    simp only [List.head?_cons, Option.some.injEq]
    exact fun h => (isDigitC_facts hc).2.2.1 h
  have hall : (c :: r).all isDigitC = true := by
    simp only [List.all_cons, hc, Bool.true_and]
    exact hr
  simp only [parseI64]
  rw [if_neg hcm]
  rw [if_pos (⟨by simp, hall⟩ :
    ((false, c :: r).2 ≠ [] ∧ (false, c :: r).2.all isDigitC = true))]
  show (if i64Min ≤ (decValue (c :: r) : Int) ∧ (decValue (c :: r) : Int) ≤ i64Max then
      some ((decValue (c :: r) : Int)) else none) = _
  by_cases hle : (decValue (c :: r) : Int) ≤ i64Max
  · rw [if_pos ⟨by unfold i64Min; omega, hle⟩, if_pos hle]
  · rw [if_neg (fun hcon => hle hcon.2), if_neg hle]

/-- C7: a decimal digit run whose value exceeds the signed 64-bit bound
produces a lexical error, not a wrapped Integer token. -/
theorem decimal_overflow_error (s : List Char) (hne : s ≠ [])
    (hd : s.all isDigitC = true) (hbig : i64Max < (decValue s : Int)) :
    tokenizeL s = [Except.error ()] := by
  obtain ⟨c, r, rfl⟩ := List.exists_cons_of_ne_nil hne
  have hc : isDigitC c = true := (List.all_eq_true.mp hd) c (by simp)
  have hr : r.all isDigitC = true := by
    rw [List.all_eq_true] at hd ⊢
    intro a ha
    exact hd a (by simp [ha])
  have facts := isDigitC_facts hc
  have herr : mkIntTok (c :: r) = Except.error () := by
    unfold mkIntTok asInt
    rw [stripNum_digits hc hr, parseI64_digits hc hr, if_neg (by omega)]
  rw [tokenizeL_single (by simp)
    (skipLen_zero facts.2.1 facts.2.2.1 facts.2.2.2.1)
    (tokenCand_digit_run hc hr), herr]

/-- Witness for the C7 theorem: the value one past the largest i64. -/
theorem decimal_overflow_error_witness :
    ("9223372036854775808".toList ≠ [] ∧
      i64Max < (decValue ("9223372036854775808".toList) : Int)) ∧
      tokenize "9223372036854775808" = [Except.error ()] := by
  refine ⟨⟨by decide, by decide⟩, ?_⟩
  exact decimal_overflow_error ("9223372036854775808".toList) (by decide) (by decide)
    (by decide)

/-! ### Hex-shaped numeric lexemes -/

lemma hexDigit_ne_x {c : Char} (h : isHexDigitC c = true) : c ≠ 'x' := by
  rintro rfl
  exact absurd h (by decide)

lemma hexDigit_ne_X {c : Char} (h : isHexDigitC c = true) : c ≠ 'X' := by
  rintro rfl
  exact absurd h (by decide)

lemma hexDigit_ne_dash {c : Char} (h : isHexDigitC c = true) : c ≠ '-' := by
  rintro rfl
  exact absurd h (by decide)

lemma hexDigit_ne_und {c : Char} (h : isHexDigitC c = true) : (c != '_') = true := by
  simp only [bne_iff_ne, ne_eq]
  rintro rfl
  exact absurd h (by decide)

lemma hexUnd_ne_x {c : Char} (h : isHexUndC c = true) : c ≠ 'x' := by
  rintro rfl
  exact absurd h (by decide)

lemma hexUnd_ne_X {c : Char} (h : isHexUndC c = true) : c ≠ 'X' := by
  rintro rfl
  exact absurd h (by decide)

lemma hexDigit_hexUnd {c : Char} (h : isHexDigitC c = true) : isHexUndC c = true := by
  simp [isHexUndC, h]

lemma hexRunLen_full {c : Char} {r : List Char}
    (hc : isHexDigitC c = true) (hr : r.all isHexUndC = true) :
    hexRunLen (c :: r) = r.length + 1 := by
  simp [hexRunLen, hc, takeLen_eq_length hr, Nat.add_comm]

lemma filter_all_hexDigit {l : List Char} (h : l.all isHexUndC = true) :
    (l.filter (fun c => c != '_')).all isHexDigitC = true := by
  rw [List.all_eq_true]
  intro a ha
  obtain ⟨hmem, hne⟩ := List.mem_filter.mp ha
  have h1 := (List.all_eq_true.mp h) a hmem
  simp only [isHexUndC, Bool.or_eq_true, decide_eq_true_eq] at h1
  rcases h1 with h1 | h1
  · exact h1
  · exfalso
    have ha' : a = '_' := char_eq_of_toNat_eq (by rw [h1]; decide)
    rw [ha'] at hne
    simp at hne

lemma hexCondT {x d : Char} {rest : List Char} (hx : x = 'x' ∨ x = 'X') :
    ('0' :: x :: d :: rest).head? = some '0' ∧
      ((('0' :: x :: d :: rest).drop 1).head? = some 'x' ∨
        (('0' :: x :: d :: rest).drop 1).head? = some 'X') := by
  refine ⟨rfl, ?_⟩
  rcases hx with rfl | rfl
  · exact Or.inl rfl
  · exact Or.inr rfl

lemma decRunLen_hexhead {x d : Char} {rest : List Char} (hx : x = 'x' ∨ x = 'X') :
    decRunLen ('0' :: x :: d :: rest) = 1 := by
  have hxd : isDigitUndC x = false := by
    rcases hx with rfl | rfl <;> decide
  simp only [decRunLen, List.head?_cons]
  rw [if_pos (by decide)]
  have hdrop : ('0' :: x :: d :: rest).drop 1 = x :: d :: rest := rfl
  rw [hdrop, takeLen_cons_neg hxd]

lemma hexIntLen_full {x d : Char} {rest : List Char}
    (hx : x = 'x' ∨ x = 'X') (hd : isHexDigitC d = true)
    (hrest : rest.all isHexUndC = true) :
    hexIntLen ('0' :: x :: d :: rest) = rest.length + 3 := by
  simp only [hexIntLen]
  rw [if_pos (hexCondT hx)]
  have hdrop : ('0' :: x :: d :: rest).drop 2 = d :: rest := rfl
  rw [hdrop, hexRunLen_full hd hrest]
  rw [if_neg (by omega)]
  omega

lemma tokenCand_hexInt {x d : Char} {rest : List Char}
    (hx : x = 'x' ∨ x = 'X') (hd : isHexDigitC d = true)
    (hrest : rest.all isHexUndC = true) :
    tokenCand ('0' :: x :: d :: rest) =
      some (('0' :: x :: d :: rest).length, mkIntTok ('0' :: x :: d :: rest)) := by
  have hxdot : x ≠ '.' := by
    rcases hx with rfl | rfl <;> decide
  have hdec1 := @decRunLen_hexhead x d rest hx
  have hint : intLen ('0' :: x :: d :: rest) = ('0' :: x :: d :: rest).length := by
    unfold intLen
    rw [hdec1, hexIntLen_full hx hd hrest]
    simp only [List.length_cons]
    omega
  have hdflt : decFloatLen ('0' :: x :: d :: rest) = 0 := by
    refine decFloatLen_zero_nodot (by rw [hdec1]; omega) ?_
    rw [hdec1]
    have hdrop : ('0' :: x :: d :: rest).drop 1 = x :: d :: rest := rfl
    rw [hdrop]
    simp only [List.head?_cons, ne_eq, Option.some.injEq]
    exact hxdot
  have hhflt : hexFloatLen ('0' :: x :: d :: rest) = 0 := by
    simp only [hexFloatLen]
    rw [if_pos (hexCondT hx)]
    have hdrop : ('0' :: x :: d :: rest).drop 2 = d :: rest := rfl
    rw [hdrop, hexRunLen_full hd hrest]
    rw [if_neg (by omega)]
    have hdrop2 : ('0' :: x :: d :: rest).drop (2 + (rest.length + 1)) = [] := by
      have h23 : 2 + (rest.length + 1) = ('0' :: x :: d :: rest).length := by
        simp only [List.length_cons]
        omega
      rw [h23, List.drop_length]
    rw [hdrop2]
    rw [if_neg (by simp)]
  have hflt : floatLen ('0' :: x :: d :: rest) = 0 := by
    unfold floatLen
    rw [hdflt, hhflt]
    simp
  have hintc : intCand ('0' :: x :: d :: rest) =
      some (('0' :: x :: d :: rest).length, mkIntTok ('0' :: x :: d :: rest)) := by
    simp only [intCand, hint]
    rw [if_neg (by simp), List.take_length]
  unfold tokenCand
  rw [hintc, litCand_none_digit (by decide), identCand_zero (identLen_zero (by decide)),
    strCand_zero (strLen_zero (by decide) (by decide)), floatCand_zero hflt]
  rfl

lemma stripNum_hex {x d : Char} {rest : List Char}
    (hx : x = 'x' ∨ x = 'X') (hd : isHexDigitC d = true)
    (hrest : rest.all isHexUndC = true) :
    stripNum ('0' :: x :: d :: rest) = (d :: rest).filter (fun c => c != '_') := by
  have hno_x : ∀ a ∈ (d :: rest), a ≠ 'x' := by
    intro a ha
    rcases List.mem_cons.mp ha with rfl | ha
    · exact hexDigit_ne_x hd
    · exact hexUnd_ne_x ((List.all_eq_true.mp hrest) a ha)
  have hno_X : ∀ a ∈ (d :: rest), a ≠ 'X' := by
    intro a ha
    rcases List.mem_cons.mp ha with rfl | ha
    · exact hexDigit_ne_X hd
    · exact hexUnd_ne_X ((List.all_eq_true.mp hrest) a ha)
  unfold stripNum
  rcases hx with rfl | rfl
  · rw [trimStart0x.eq_1, trimStart0x_of_no_x hno_x, trimStart0X_of_no_X hno_X]
  · have hno_x' : ∀ a ∈ ('0' :: 'X' :: d :: rest), a ≠ 'x' := by
      intro a ha
      rcases List.mem_cons.mp ha with rfl | ha
      · decide
      rcases List.mem_cons.mp ha with rfl | ha
      · decide
      · exact hno_x a ha
    rw [trimStart0x_of_no_x hno_x', trimStart0X.eq_1, trimStart0X_of_no_X hno_X]

lemma parseI64_hexfiltered {ds : List Char} (hne : ds ≠ [])
    (hall : ds.all isHexDigitC = true) :
    parseI64 ds =
      if ds.all isDigitC = true ∧ (decValue ds : Int) ≤ i64Max then
        some ((decValue ds : Int))
      else none := by
  obtain ⟨d, r, rfl⟩ := List.exists_cons_of_ne_nil hne
  have hdm : ¬((d :: r).head? = some '-') := by
    simp only [List.head?_cons, Option.some.injEq]
    intro h
    exact hexDigit_ne_dash ((List.all_eq_true.mp hall) d (by simp)) h
  simp only [parseI64]
  rw [if_neg hdm]
  by_cases hdig : (d :: r).all isDigitC = true
  · rw [if_pos (⟨by simp, hdig⟩ :
      ((false, d :: r).2 ≠ [] ∧ (false, d :: r).2.all isDigitC = true))]
    show (if i64Min ≤ (decValue (d :: r) : Int) ∧ (decValue (d :: r) : Int) ≤ i64Max then
        some ((decValue (d :: r) : Int)) else none) = _
    by_cases hle : (decValue (d :: r) : Int) ≤ i64Max
    · rw [if_pos ⟨by unfold i64Min; omega, hle⟩, if_pos ⟨hdig, hle⟩]
    · rw [if_neg (fun hcon => hle hcon.2), if_neg (fun hcon => hle hcon.2)]
  · rw [if_neg (fun hcon => hdig hcon.2), if_neg (fun hcon => hdig hcon.1)]

/-- C2 (amended): a hex integer lexeme decodes by stripping the marker and
the underscores and parsing the remaining digit characters in base 10 into
the signed 64-bit range (a remaining letter digit, or overflow, is a
lexical error); the spec examples 0x1, 1_000 and 0 decode to 1, 1000
and 0. -/
theorem hex_integer_decimal_decode (x d : Char) (rest : List Char)
    (hx : x = 'x' ∨ x = 'X') (hd : isHexDigitC d = true)
    (hrest : rest.all isHexUndC = true) :
    tokenizeL ('0' :: x :: d :: rest) =
      [specIntDecode ((d :: rest).filter (fun c => c != '_'))] ∧
    tokenize "0x1" = [Except.ok (LuaToken.Integer 1)] ∧
    tokenize "1_000" = [Except.ok (LuaToken.Integer 1000)] ∧
    tokenize "0" = [Except.ok (LuaToken.Integer 0)] := by
  refine ⟨?_, by decide, by decide, by decide⟩
  rw [tokenizeL_single (by simp) (skipLen_zero (by decide) (by decide) (by decide))
    (tokenCand_hexInt hx hd hrest)]
  have hne2 : (d :: rest).filter (fun c => c != '_') ≠ [] := by
    have hmem : d ∈ (d :: rest).filter (fun c => c != '_') :=
      List.mem_filter.mpr ⟨by simp, hexDigit_ne_und hd⟩
    exact List.ne_nil_of_mem hmem
  have hall2 : (d :: rest).all isHexUndC = true := by
    simp only [List.all_cons, hexDigit_hexUnd hd, Bool.true_and]
    exact hrest
  have hmk : mkIntTok ('0' :: x :: d :: rest) =
      specIntDecode ((d :: rest).filter (fun c => c != '_')) := by
    unfold mkIntTok asInt specIntDecode
    rw [stripNum_hex hx hd hrest,
      parseI64_hexfiltered hne2 (filter_all_hexDigit hall2)]
    by_cases hP : ((d :: rest).filter (fun c => c != '_')).all isDigitC = true ∧
        (decValue ((d :: rest).filter (fun c => c != '_')) : Int) ≤ i64Max
    · rw [if_pos hP, if_pos hP]
    · rw [if_neg hP, if_neg hP]
  rw [hmk]

/-- Witness for the C2 theorem at the lexeme 0x12, which decodes to the
base-10 value twelve (not eighteen). -/
theorem hex_integer_decimal_decode_witness :
    (('x' : Char) = 'x' ∨ ('x' : Char) = 'X') ∧
      tokenize "0x12" = [Except.ok (LuaToken.Integer 12)] := by
  refine ⟨Or.inl rfl, ?_⟩
  have h := (hex_integer_decimal_decode 'x' '1' ['2'] (Or.inl rfl) (by decide)
    (by decide)).1
  have heq : "0x12".toList = '0' :: 'x' :: '1' :: ['2'] := by decide
  unfold tokenize
  rw [heq, h]
  decide

/-! ### Hex float lexemes -/

lemma hexUnd_ne_dot {c : Char} (h : isHexUndC c = true) : (c != '.') = true := by
  simp only [bne_iff_ne, ne_eq]
  rintro rfl
  exact absurd h (by decide)

lemma hexUnd_bnedot {c : Char} (h : isHexUndC c = true) : (c != '.') = true :=
  hexUnd_ne_dot h

end Tlc
